import Mathlib

/-!
Verification of the record-to-row normalization pipeline of the
Shopify-Dessy-Scraper repository.

The TypeScript services are shallowly embedded as Lean functions:
  * `slugify` — the URL-slug generator that appears three times verbatim in
    the source (`scraperService.ts`, `JsonProcessorService._slugify`, and the
    module-level `slugify` in the CSV processor part of
    `dataExtractorService.ts`); one Lean definition models all three.
  * `processJsonRows` — `JsonProcessorService.processJson` (structured-array
    mode), minus JSON decoding and CSV serialization, which are pure
    (de)serialization steps.
  * `csvLoop` / `processCsvRows` — `CsvProcessorService.processCsv`
    (flexible-tabular mode), starting from the parsed header records.
  * `ffill` / `shopifyProcessCsv` — `ShopifyProcessorService.processCsv`
    (re-projection mode).
  * `createHandle` / `extractorFormat` — `DataExtractorService`
    (extracted-single-record mode), with `Date.now()` made an explicit
    parameter.

Strings are JS strings; JS `x || d` on possibly-undefined string fields is
modelled by `orD : Option String → String → String`.  JS `Date.now()` is an
explicit `Nat` argument.  `String.prototype.toLowerCase` is modelled on the
character ranges the pipeline can encounter (ASCII, Latin-1 and Latin
Extended-A); outside those ranges the modelled function is the identity, as
is the real function on every character the claims exercise.
-/

namespace DessyScraper

/-- JS regular-expression `\s` (the whitespace class used by `\s+` and by
`String.prototype.trim`). -/
def isJsWs (c : Char) : Bool :=
  let v := c.toNat
  (9 ≤ v && v ≤ 13) || v == 32 || v == 160 || v == 0x1680 ||
  (0x2000 ≤ v && v ≤ 0x200a) || v == 0x2028 || v == 0x2029 ||
  v == 0x202f || v == 0x205f || v == 0x3000 || v == 0xfeff

/-- JS regular-expression `\w`: ASCII letters, digits and underscore. -/
def isWordChar (c : Char) : Bool :=
  let v := c.toNat
  (48 ≤ v && v ≤ 57) || (65 ≤ v && v ≤ 90) || (97 ≤ v && v ≤ 122) || v == 95

/-- Characters a finished slug may contain: lowercase ASCII letters, digits
and the hyphen. -/
def isSlugChar (c : Char) : Bool :=
  let v := c.toNat
  (48 ≤ v && v ≤ 57) || (97 ≤ v && v ≤ 122) || v == 45

/-- `String.prototype.toLowerCase`, modelled on ASCII, Latin-1 and Latin
Extended-A (the Unicode simple lowercase mappings for those blocks). -/
def jsToLower (c : Char) : Char :=
  if 65 ≤ c.toNat ∧ c.toNat ≤ 90 then Char.ofNat (c.toNat + 32)
  else if 192 ≤ c.toNat ∧ c.toNat ≤ 222 ∧ c.toNat ≠ 215 then
    Char.ofNat (c.toNat + 32)
  else if (256 ≤ c.toNat ∧ c.toNat ≤ 311) ∨ (330 ≤ c.toNat ∧ c.toNat ≤ 375) then
    (if c.toNat % 2 = 0 then Char.ofNat (c.toNat + 1) else c)
  else if (313 ≤ c.toNat ∧ c.toNat ≤ 328) ∨ (377 ≤ c.toNat ∧ c.toNat ≤ 382) then
    (if c.toNat % 2 = 1 then Char.ofNat (c.toNat + 1) else c)
  else if c.toNat = 376 then Char.ofNat 255
  else c

/-- The source table `a` of the slugifier: characters to transliterate. -/
def translitA : List Char :=
  "àáâäæãåāăąçćčđďèéêëēėęěğǵḧîïíīįìłḿñńǹňôöòóœøōõőṕŕřßśšşșťțûüùúūǘůűųẃẍÿýžźż·/_,:;".data

/-- The source table `b` of the slugifier: positional replacements for
`translitA`. -/
def translitB : List Char :=
  "aaaaaaaaaacccddeeeeeeeegghiiiiiilmnnnnoooooooooprrsssssttuuuuuuuuuwxyyzzz------".data

/-- One step of `.replace(p, c => b.charAt(a.indexOf(c)))`: transliterate a
character through the positional tables, leaving unmapped characters alone. -/
def translitChar (c : Char) : Char :=
  match (translitA.zip translitB).find? (fun q => q.1 == c) with
  | some q => q.2
  | none => c

/-- `.replace(/\s+/g, '-')`: each maximal run of whitespace becomes a single
hyphen.  The boolean records whether the previous character was whitespace. -/
def wsRuns : Bool → List Char → List Char
  | _, [] => []
  | inRun, c :: rest =>
    if isJsWs c then
      (if inRun then wsRuns true rest else '-' :: wsRuns true rest)
    else c :: wsRuns false rest

/-- `.replace(/&/g, '-and-')` at the level of one character. -/
def ampExpand (c : Char) : List Char :=
  if c = '&' then ['-', 'a', 'n', 'd', '-'] else [c]

/-- The character class kept by `.replace(/[^\w\-]+/g, '')`. -/
def keepSlug (c : Char) : Bool := isWordChar c || c == '-'

/-- `.replace(/\-\-+/g, '-')`: collapse runs of hyphens to a single hyphen.
The boolean records whether the previous kept character was a hyphen. -/
def collapseHy : Bool → List Char → List Char
  | _, [] => []
  | prev, c :: rest =>
    if c = '-' then
      (if prev then collapseHy true rest else '-' :: collapseHy true rest)
    else c :: collapseHy false rest

/-- Remove every trailing character satisfying `p` (used for the source's
final `.replace` that strips trailing hyphens, and for the trailing half of
`trim`). -/
def dropTrailing (p : Char → Bool) : List Char → List Char
  | [] => []
  | c :: rest =>
    let r := dropTrailing p rest
    if r = [] ∧ p c then [] else c :: r

/-- The whole slugifier pipeline on a character list, stage for stage as in
the source: lowercase, whitespace runs to hyphen, transliterate, expand `&`,
strip non-word characters, collapse hyphens, trim hyphens at both ends. -/
def slugifyList (l : List Char) : List Char :=
  dropTrailing (fun c => c == '-')
    ((collapseHy false
      ((((wsRuns false (l.map jsToLower)).map translitChar).flatMap ampExpand).filter
        keepSlug)).dropWhile (fun c => c == '-'))

/-- The slug generator shared verbatim by `scraperService.ts`,
`JsonProcessorService._slugify` and the CSV processor: `if (!text) return ''`
followed by the seven-stage replacement pipeline. -/
def slugify (s : String) : String :=
  if s = "" then "" else ⟨slugifyList s.data⟩

/-- `String.prototype.trim` (JS whitespace at both ends). -/
def jsTrim (s : String) : String :=
  ⟨dropTrailing isJsWs (s.data.dropWhile isJsWs)⟩

/-! ### Structural predicates on finished slugs -/

/-- No two adjacent hyphens anywhere in the list. -/
def noDD : List Char → Bool
  | [] => true
  | [_] => true
  | a :: b :: rest => !(a == '-' && b == '-') && noDD (b :: rest)

/-- The list does not start with a hyphen. -/
def noLead : List Char → Bool
  | [] => true
  | c :: _ => !(c == '-')

/-- The list does not end with a hyphen. -/
def noTrail : List Char → Bool
  | [] => true
  | [c] => !(c == '-')
  | _ :: rest => noTrail rest

/-- A finished slug: only lowercase ASCII letters, digits and hyphens, with
no hyphen run, and no hyphen at either end. -/
def canonicalSlug (l : List Char) : Prop :=
  (∀ c ∈ l, isSlugChar c = true) ∧ noDD l = true ∧ noLead l = true ∧
    noTrail l = true

/-! ### Data model: cells and the fixed Matrixify row -/

/-- A cell value as the services put it on a row object: a JS string or a JS
number (the services use numbers only for image positions and the zero
quantity/grams defaults). -/
inductive Cell where
  | str : String → Cell
  | num : Nat → Cell
deriving DecidableEq, Repr

/-- One output row restricted to the 18 `MATRIXIFY_HEADERS` columns of
`constants.ts`.  A field that the service never set on the JS object is
`none` and serializes as a blank cell. -/
structure MRow where
  handle : Option Cell := none
  title : Option Cell := none
  vendor : Option Cell := none
  published : Option Cell := none
  bodyHtml : Option Cell := none
  tags : Option Cell := none
  imageSrc : Option Cell := none
  variantImage : Option Cell := none
  imagePosition : Option Cell := none
  option1Name : Option Cell := none
  option1Value : Option Cell := none
  variantSKU : Option Cell := none
  variantPrice : Option Cell := none
  variantGrams : Option Cell := none
  variantInventoryQty : Option Cell := none
  variantRequiresShipping : Option Cell := none
  variantTaxable : Option Cell := none
  giftCard : Option Cell := none
deriving DecidableEq, Repr

/-- JS truthiness of a possibly-undefined string field. -/
def tru : Option String → Bool
  | some s => s ≠ ""
  | none => false

/-- JS `x || d` for a possibly-undefined string field `x`. -/
def orD (o : Option String) (d : String) : String :=
  match o with
  | some s => if s = "" then d else s
  | none => d

/-- `[xs].filter(Boolean)` over possibly-undefined string fields. -/
def truthyList (l : List (Option String)) : List String :=
  l.filterMap fun o =>
    match o with
    | some s => if s = "" then none else some s
    | none => none

/-- `.join(', ')`. -/
def joinComma (l : List String) : String :=
  String.intercalate ", " l

/-- `.replace(/\n/g, '<br>')`. -/
def brify (s : String) : String :=
  s.replace "\n" "<br>"

/-! ### Structured-array mode: `JsonProcessorService.processJson` -/

/-- A product object of the parsed workflow JSON (`KadoaWorkflowProduct`),
with absent/undefined string fields as `none`; an absent `thumbnailImages`
array behaves exactly like an empty one in the service, so it is a plain
list. -/
structure KProduct where
  productId : Option String := none
  productName : Option String := none
  description : Option String := none
  caution : Option String := none
  material : Option String := none
  color : Option String := none
  size : Option String := none
  fitLevel : Option String := none
  brandName : Option String := none
  mainImage : Option String := none
  thumbnailImages : List String := []
deriving DecidableEq, Repr

/-- `this._slugify(p.productName) || p.productId || ''`. -/
def jsonHandle (p : KProduct) : String :=
  if slugify (orD p.productName "") ≠ "" then slugify (orD p.productName "")
  else if tru p.productId then orD p.productId "" else ""

/-- The `bodyParts` concatenation building `Body (HTML)`. -/
def jsonBody (p : KProduct) : String :=
  String.join
    ((if tru p.description then [brify (orD p.description "")] else []) ++
     (if tru p.caution then
        ["<br><br><strong>注意:</strong> " ++ brify (orD p.caution "")] else []) ++
     (if tru p.material then
        ["<br><br><strong>素材:</strong> " ++ brify (orD p.material "")] else []))

/-- `[p.color, p.material, p.fitLevel].filter(Boolean).join(', ')`. -/
def jsonTags (p : KProduct) : String :=
  joinComma (truthyList [p.color, p.material, p.fitLevel])

/-- The `productRow` literal of `processJson` (image fields not yet set). -/
def jsonProductRow (p : KProduct) : MRow :=
  { handle := some (.str (jsonHandle p))
    title := some (.str (orD p.productName ""))
    bodyHtml := some (.str (jsonBody p))
    vendor := some (.str (orD p.brandName "Your-Store"))
    tags := some (.str (jsonTags p))
    option1Name := some (.str "Size")
    option1Value := some (.str (orD p.size "Default Title"))
    variantSKU := some (.str (orD p.productId ""))
    variantImage := some (.str (orD p.mainImage ""))
    variantPrice := some (.str "0.00")
    variantInventoryQty := some (.num 0)
    variantGrams := some (.num 0)
    variantRequiresShipping := some (.str "TRUE")
    variantTaxable := some (.str "TRUE")
    published := some (.str "TRUE")
    giftCard := some (.str "FALSE") }

/-- `p.mainImage || (p.thumbnailImages && p.thumbnailImages.length > 0)`. -/
def jsonHasImages (p : KProduct) : Bool :=
  tru p.mainImage || !p.thumbnailImages.isEmpty

/-- One `forEach` step over the thumbnails: push a thumbnail only if it is
truthy and not already contained in the list. -/
def addThumb (acc : List String) (t : String) : List String :=
  if t ≠ "" ∧ t ∉ acc then acc ++ [t] else acc

/-- The `allImages` list: main image first (when truthy), then the
thumbnails, skipping blanks and exact-string duplicates. -/
def jsonAllImages (p : KProduct) : List String :=
  p.thumbnailImages.foldl addThumb
    (if tru p.mainImage then [orD p.mainImage ""] else [])

/-- The continuation rows `{Handle, Image Src, Image Position}` emitted for
the images after the first, with 1-based positions `pos, pos+1, …`. -/
def jsonContRows (handle : String) : List String → Nat → List MRow
  | [], _ => []
  | img :: rest, pos =>
    { handle := some (.str handle), imageSrc := some (.str img),
      imagePosition := some (.num pos) } :: jsonContRows handle rest (pos + 1)

/-- One loop iteration of `processJson`: emitted rows and the updated
`processedHandlesForImages` set (kept as a list). -/
def jsonStep (seen : List String) (p : KProduct) : List MRow × List String :=
  if jsonHasImages p = true ∧ jsonHandle p ∉ seen then
    match jsonAllImages p with
    | [] => ([jsonProductRow p], seen ++ [jsonHandle p])
    | img0 :: restImgs =>
      ({ jsonProductRow p with
          imageSrc := some (.str img0), imagePosition := some (.num 1) } ::
        jsonContRows (jsonHandle p) restImgs 2,
       seen ++ [jsonHandle p])
  else ([jsonProductRow p], seen)

/-- The `for (const p of data)` loop of `processJson`. -/
def jsonLoop (seen : List String) : List KProduct → List MRow
  | [] => []
  | p :: rest => (jsonStep seen p).1 ++ jsonLoop (jsonStep seen p).2 rest

/-- `processJson` after JSON decoding: the row loop followed by the
`rows.length === 0` check (the thrown message is the carried error). -/
def processJsonRows (data : List KProduct) : Except String (List MRow) :=
  let rows := jsonLoop [] data
  if rows = [] then
    .error "JSONファイルから処理できる製品データが見つかりませんでした。"
  else .ok rows

/-! ### Flexible-tabular mode: `CsvProcessorService.processCsv` -/

/-- A parsed CSV record: the header cells as an association list (Papa.parse
with `header: true` yields string values; an absent key models a column the
file does not have). -/
abbrev Rec : Type := List (String × String)

/-- Property lookup on a record. -/
def lookupRec (r : Rec) (k : String) : Option String :=
  match r with
  | [] => none
  | (k', v) :: rest => if k' = k then some v else lookupRec rest k

/-- The `COLUMN_MAP` alias lists. -/
def productIdAliases : List String := ["productID", "productId", "productId_1"]

def nameAliases : List String := ["name", "productName"]

def descriptionAliases : List String := ["description"]

def cautionAliases : List String := ["caution"]

def materialAliases : List String := ["material"]

def mainImageAliases : List String := ["mainImage", "image"]

def thumbnailAliases : List String := ["thumbnailImages"]

def colorAliases : List String := ["color"]

def sizeAliases : List String := ["size"]

def fitAliases : List String := ["fitLevel"]

def brandAliases : List String := ["brandName"]

/-- `getCol`: walk the alias list, returning the first value that exists and
is non-blank after trimming (the untrimmed value is returned). -/
def getColA (r : Rec) : List String → Option String
  | [] => none
  | a :: rest =>
    match lookupRec r a with
    | some v => if jsTrim v ≠ "" then some v else getColA r rest
    | none => getColA r rest

/-- `` `${name} - ${styleNo}` `` with `name = getCol(r,'name') || ''`. -/
def csvTitle (r : Rec) (styleNo : String) : String :=
  orD (getColA r nameAliases) "" ++ " - " ++ styleNo

/-- `slugify(title) || slugify(styleNo)`. -/
def csvHandle (r : Rec) (styleNo : String) : String :=
  if slugify (csvTitle r styleNo) ≠ "" then slugify (csvTitle r styleNo)
  else slugify styleNo

/-- The `bodyParts` concatenation of the CSV processor. -/
def csvBody (r : Rec) : String :=
  String.join
    ((match getColA r descriptionAliases with
      | some d => [brify d]
      | none => []) ++
     (match getColA r cautionAliases with
      | some c => ["<br><br><strong>注意:</strong> " ++ brify c]
      | none => []) ++
     (match getColA r materialAliases with
      | some m => ["<br><br><strong>素材:</strong> " ++ brify m]
      | none => []))

/-- The `mainVariantRow` of the CSV processor: the `baseRow` literal plus
`Image Src`/`Variant Image`/`Image Position: 1`, set unconditionally. -/
def csvMainRow (r : Rec) (styleNo handle : String) : MRow :=
  { handle := some (.str handle)
    title := some (.str (csvTitle r styleNo))
    bodyHtml := some (.str (csvBody r))
    vendor := some (.str (orD (getColA r brandAliases) "Your-Store"))
    tags := some (.str (joinComma (truthyList
      [getColA r colorAliases, getColA r materialAliases, getColA r fitAliases])))
    option1Name := some (.str "Size")
    option1Value := some (.str (orD (getColA r sizeAliases) "Default Title"))
    variantSKU := some (.str styleNo)
    variantPrice := some (.str "0.00")
    variantInventoryQty := some (.num 0)
    variantGrams := some (.num 0)
    variantRequiresShipping := some (.str "TRUE")
    variantTaxable := some (.str "TRUE")
    published := some (.str "TRUE")
    giftCard := some (.str "FALSE")
    imageSrc := some (.str (orD (getColA r mainImageAliases) ""))
    variantImage := some (.str (orD (getColA r mainImageAliases) ""))
    imagePosition := some (.num 1) }

/-- The thumbnail continuation rows with positions `pos, pos+1, …`. -/
def csvThumbRowsAux (handle : String) : List String → Nat → List MRow
  | [], _ => []
  | url :: rest, pos =>
    { handle := some (.str handle), imageSrc := some (.str url),
      imagePosition := some (.num pos) } :: csvThumbRowsAux handle rest (pos + 1)

/-- JS `String.prototype.split` on a single-character class: cut the string
at every separator, keeping empty segments. -/
def splitSegs (p : Char → Bool) : List Char → List (List Char)
  | [] => [[]]
  | c :: rest =>
    if p c then [] :: splitSegs p rest
    else
      match splitSegs p rest with
      | [] => [[c]]
      | seg :: segs => (c :: seg) :: segs

/-- `thumbStr.split` on `;` and `,`, then `.map(u => u.trim())` and
`.filter(Boolean)`, turned into rows with `Image Position` starting at 2. -/
def csvThumbRows (r : Rec) (handle : String) : List MRow :=
  match getColA r thumbnailAliases with
  | none => []
  | some thumbStr =>
    csvThumbRowsAux handle
      (((splitSegs (fun c => c == ';' || c == ',') thumbStr.data).map
          (fun l => jsTrim ⟨l⟩)).filter (fun u => u ≠ "")) 2

/-- One loop iteration of the CSV processor: rows emitted for the record and
the updated `seenSkus` set. -/
def csvStep (seen : List String) (r : Rec) : List MRow × List String :=
  match getColA r productIdAliases with
  | none => ([], seen)
  | some styleNo =>
    if styleNo ∈ seen then ([], seen)
    else if csvHandle r styleNo = "" then ([], seen)
    else
      (csvMainRow r styleNo (csvHandle r styleNo) :: csvThumbRows r (csvHandle r styleNo),
       seen ++ [styleNo])

/-- The `for (const r of inputRows)` loop: all emitted output rows. -/
def csvLoop (seen : List String) : List Rec → List MRow
  | [] => []
  | r :: rest => (csvStep seen r).1 ++ csvLoop (csvStep seen r).2 rest

/-- The final `seenSkus` set after a list of records. -/
def csvSeenAfter (seen : List String) : List Rec → List String
  | [] => seen
  | r :: rest => csvSeenAfter (csvStep seen r).2 rest

/-- `processCsv` after CSV parsing: empty-input check, the loop, and the
zero-output check (the thrown messages are the carried errors). -/
def processCsvRows (input : List Rec) : Except String (List MRow) :=
  if input = [] then .error "CSVファイルが空か、有効なデータ行が含まれていません。"
  else
    let out := csvLoop [] input
    if out = [] then
      .error "CSVファイルから処理できる製品データが見つかりませんでした。"
    else .ok out

/-- A record that no run state can save: its business key is unresolvable,
or its key resolves but handle generation yields the empty slug. -/
def csvUnprocessable (r : Rec) : Bool :=
  match getColA r productIdAliases with
  | none => true
  | some styleNo => csvHandle r styleNo == ""

/-! ### Re-projection mode: `ShopifyProcessorService.processCsv` -/

/-- A parsed row of an existing export, keyed by header names. -/
abbrev SRow : Type := List (String × String)

/-- Property read on a row (absent key models a missing column). -/
def lookupS (r : SRow) (k : String) : Option String :=
  match r with
  | [] => none
  | (k', v) :: rest => if k' = k then some v else lookupS rest k

/-- Property write `row[k] = v`. -/
def setS : SRow → String → String → SRow
  | [], k, v => [(k, v)]
  | (k', v') :: rest, k, v =>
    if k' = k then (k, v) :: rest else (k', v') :: setS rest k v

/-- `row[k] && String(row[k]).trim() !== ''`. -/
def isFilled : Option String → Bool
  | some s => s ≠ "" && jsTrim s ≠ ""
  | none => false

/-- `!(k in row) || row[k] == null || String(row[k]).trim() === ''`. -/
def blankS (o : Option String) : Bool :=
  match o with
  | some s => jsTrim s == ""
  | none => true

/-- The mutable `lastTitle`/`lastVendor`/`lastOption1Name` state of the
forward-fill pass (all start as the empty string). -/
structure FfSt where
  lastTitle : String := ""
  lastVendor : String := ""
  lastOption1Name : String := ""
deriving DecidableEq, Repr

/-- One `rows.map` step of the forward-fill pass: a non-blank cell updates
the remembered value, a blank cell is overwritten with it. -/
def ffillRow (st : FfSt) (r : SRow) : SRow × FfSt :=
  let step1 : SRow × String :=
    if isFilled (lookupS r "Title") then (r, orD (lookupS r "Title") "")
    else (setS r "Title" st.lastTitle, st.lastTitle)
  let step2 : SRow × String :=
    if isFilled (lookupS step1.1 "Vendor") then
      (step1.1, orD (lookupS step1.1 "Vendor") "")
    else (setS step1.1 "Vendor" st.lastVendor, st.lastVendor)
  let step3 : SRow × String :=
    if isFilled (lookupS step2.1 "Option1 Name") then
      (step2.1, orD (lookupS step2.1 "Option1 Name") "")
    else (setS step2.1 "Option1 Name" st.lastOption1Name, st.lastOption1Name)
  (step3.1, ⟨step1.2, step2.2, step3.2⟩)

/-- The sequential forward-fill over all rows. -/
def ffill (st : FfSt) : List SRow → List SRow
  | [] => []
  | r :: rest => (ffillRow st r).1 :: ffill (ffillRow st r).2 rest

/-- The `defaults` table of `ShopifyProcessorService.processCsv`. -/
def shopifyDefaults : List (String × String) :=
  [("Vendor", "Your-Store"), ("Published", "TRUE"), ("Option1 Name", "Title"),
   ("Option1 Value", "Default Title"), ("Variant Grams", "0"),
   ("Variant Inventory Policy", "deny"), ("Variant Fulfillment Service", "manual"),
   ("Variant Inventory Qty", "0"), ("Variant Price", "0"),
   ("Variant Requires Shipping", "TRUE"), ("Variant Taxable", "TRUE"),
   ("Gift Card", "FALSE"), ("Body (HTML)", ""), ("Tags", "")]

/-- Apply the default table to one row: every missing or blank listed column
receives its default. -/
def applyDefaults (r : SRow) : SRow :=
  shopifyDefaults.foldl
    (fun acc kd => if blankS (lookupS acc kd.1) then setS acc kd.1 kd.2 else acc) r

/-- The second `rows.map` of the pass: drop the row when `Handle` is blank,
otherwise fill defaults. -/
def shopifyRowPass (r : SRow) : Option SRow :=
  if blankS (lookupS r "Handle") then none else some (applyDefaults r)

/-- `ShopifyProcessorService.processCsv` after CSV parsing: the empty-file
rejection of `parseCsv`, forward-fill, defaults/handle filtering, then
either the processed rows or — when nothing survived — the value `null`
(`Option.none`), returned without throwing. -/
def shopifyProcessCsv (rows : List SRow) : Except String (Option (List SRow)) :=
  if rows = [] then .error "CSVファイルが空か、またはヘッダーが無効です。"
  else
    let processed := (ffill {} rows).filterMap shopifyRowPass
    if processed = [] then .ok none else .ok (some processed)

/-! ### Extracted-single-record mode: `DataExtractorService` -/

/-- The raw fields parsed from the extraction response
(`RawExtractedData`). -/
structure RawExtracted where
  productId : Option String := none
  productName : Option String := none
  description : Option String := none
  caution : Option String := none
  color : Option String := none
  material : Option String := none
  vendor : Option String := none
  mainImage : Option String := none
deriving DecidableEq, Repr

/-- Characters kept by `createHandle`: lowercase ASCII letters, digits,
hyphen, and the Japanese Unicode ranges of the source regular expression. -/
def isHandleChar (c : Char) : Bool :=
  let v := c.toNat
  (97 ≤ v && v ≤ 122) || (48 ≤ v && v ≤ 57) || v == 45 ||
  (0x3000 ≤ v && v ≤ 0x303f) || (0x3040 ≤ v && v ≤ 0x309f) ||
  (0x30a0 ≤ v && v ≤ 0x30ff) || (0xff00 ≤ v && v ≤ 0xff9f) ||
  (0x4e00 ≤ v && v ≤ 0x9faf) || (0x3400 ≤ v && v ≤ 0x4dbf)

/-- `DataExtractorService.createHandle`, with `Date.now()` as the explicit
`now` argument: blank name and color yield `product-<now>`; otherwise the
trimmed, lowercased `name color` with whitespace runs hyphenated and
disallowed characters removed. -/
def createHandle (now : Nat) (name color : String) : String :=
  if name = "" ∧ color = "" then "product-" ++ toString now
  else
    ⟨(wsRuns false ((jsTrim (name ++ " " ++ color)).data.map jsToLower)).filter
      isHandleChar⟩

/-- The fixed-shape record built by `processText` (the subset of
`ExtractedProductData` the service fills in code). -/
structure ExtRow where
  handle : String
  title : String
  bodyHtml : String
  vendor : String
  tags : String
  published : String
  option1Name : String
  option1Value : String
  variantSKU : String
  variantPrice : String
  imageSrc : String
  status : String
  variantInventoryPolicy : String
  variantFulfillmentService : String
  variantRequiresShipping : String
  variantTaxable : String
deriving DecidableEq, Repr

/-- `.replace(/\n/g, '<br />')` (the extractor variant of the break tag). -/
def brify2 (s : String) : String :=
  s.replace "\n" "<br />"

/-- The code-based formatting block of `DataExtractorService.processText`,
from the parsed raw fields to the Shopify-shaped record; `now` is the
`Date.now()` the handle would use in its fallback branch. -/
def extractorFormat (e : RawExtracted) (now : Nat) : ExtRow :=
  { handle := createHandle now (orD e.productName "product") (orD e.color "")
    title := jsTrim (orD e.productName "" ++ " " ++ orD e.color "")
    bodyHtml := jsTrim
      ((if tru e.description then
          "<p>" ++ brify2 (orD e.description "") ++ "</p>" else "") ++ "\n" ++
       (if tru e.caution then
          "<p><strong>【ご注意】</strong><br />" ++ brify2 (orD e.caution "") ++
            "</p>" else ""))
    vendor := orD e.vendor ""
    tags := joinComma (truthyList [e.vendor, e.material, e.productName])
    published := "TRUE"
    option1Name := "カラー"
    option1Value := orD e.color ""
    variantSKU := orD e.productId ""
    variantPrice := "0"
    imageSrc := orD e.mainImage ""
    status := "active"
    variantInventoryPolicy := "deny"
    variantFulfillmentService := "manual"
    variantRequiresShipping := "TRUE"
    variantTaxable := "TRUE" }

/-! ### Character-level facts -/

theorem toNat_ofNat_valid {n : Nat} (h : n < 55296) :
    (Char.ofNat n).toNat = n := by
  have hv : n.isValidChar := Or.inl h
  rw [Char.ofNat, dif_pos hv]
  simp [Char.ofNatAux, Char.toNat, UInt32.toNat]

theorem char_eq_iff_toNat {c d : Char} : c = d ↔ c.toNat = d.toNat := by
  constructor
  · intro h; rw [h]
  · intro h
    have hc := Char.ofNat_toNat c
    have hd := Char.ofNat_toNat d
    rw [← hc, ← hd, h]

theorem isSlugChar_iff {c : Char} : isSlugChar c = true ↔
    (48 ≤ c.toNat ∧ c.toNat ≤ 57) ∨ (97 ≤ c.toNat ∧ c.toNat ≤ 122) ∨
      c.toNat = 45 := by
  simp [isSlugChar]
  tauto

theorem isWordChar_iff {c : Char} : isWordChar c = true ↔
    (48 ≤ c.toNat ∧ c.toNat ≤ 57) ∨ (65 ≤ c.toNat ∧ c.toNat ≤ 90) ∨
      (97 ≤ c.toNat ∧ c.toNat ≤ 122) ∨ c.toNat = 95 := by
  simp [isWordChar]
  tauto

theorem isJsWs_iff {c : Char} : isJsWs c = true ↔
    (9 ≤ c.toNat ∧ c.toNat ≤ 13) ∨ c.toNat = 32 ∨ c.toNat = 160 ∨
      c.toNat = 0x1680 ∨ (0x2000 ≤ c.toNat ∧ c.toNat ≤ 0x200a) ∨
      c.toNat = 0x2028 ∨ c.toNat = 0x2029 ∨ c.toNat = 0x202f ∨
      c.toNat = 0x205f ∨ c.toNat = 0x3000 ∨ c.toNat = 0xfeff := by
  simp [isJsWs]
  tauto

/-- `jsToLower` never yields an ASCII uppercase letter. -/
theorem jsToLower_not_upper (c : Char) :
    ¬(65 ≤ (jsToLower c).toNat ∧ (jsToLower c).toNat ≤ 90) := by
  unfold jsToLower
  split_ifs with h1 h2 h3 h4 h5 h6 <;>
    first
      | (rw [toNat_ofNat_valid (by omega)]; omega)
      | omega

/-- `jsToLower` fixes every character a finished slug may contain. -/
theorem jsToLower_fixed {c : Char} (h : isSlugChar c = true) :
    jsToLower c = c := by
  rw [isSlugChar_iff] at h
  unfold jsToLower
  split_ifs with h1 h2 h3 h4 h5 <;> first | omega | rfl

theorem slug_not_ws {c : Char} (h : isSlugChar c = true) : isJsWs c = false := by
  rw [isSlugChar_iff] at h
  rw [Bool.eq_false_iff]
  intro hw
  rw [isJsWs_iff] at hw
  omega

theorem slug_not_amp {c : Char} (h : isSlugChar c = true) : c ≠ '&' := by
  rw [isSlugChar_iff] at h
  rw [Ne, char_eq_iff_toNat]
  intro he
  simp at he
  omega

theorem slug_keep {c : Char} (h : isSlugChar c = true) : keepSlug c = true := by
  rw [isSlugChar_iff] at h
  rw [keepSlug, Bool.or_eq_true, isWordChar_iff, beq_iff_eq, char_eq_iff_toNat]
  have h45 : ('-').toNat = 45 := by decide
  omega

/-- A kept word-or-hyphen character that is neither uppercase nor an
underscore is a slug character. -/
theorem keep_ok_slug {c : Char} (hk : keepSlug c = true)
    (hu : ¬(65 ≤ c.toNat ∧ c.toNat ≤ 90)) (h95 : c.toNat ≠ 95) :
    isSlugChar c = true := by
  rw [keepSlug, Bool.or_eq_true, isWordChar_iff, beq_iff_eq,
    char_eq_iff_toNat] at hk
  rw [isSlugChar_iff]
  have h45 : ('-').toNat = 45 := by decide
  rcases hk with (h | h | h | h) | h <;> omega

/-! ### Transliteration-table facts -/

theorem translitB_slug : ∀ c ∈ translitB, isSlugChar c = true := by decide

theorem translitA_not_slug : ∀ c ∈ translitA, isSlugChar c = false := by decide

theorem translitChar_underscore : translitChar '_' = '-' := by decide

/-- The transliteration step either fixes a character or yields a character
of the replacement table. -/
theorem translitChar_cases (c : Char) :
    translitChar c = c ∨ translitChar c ∈ translitB := by
  unfold translitChar
  cases hf : (translitA.zip translitB).find? (fun q => q.1 == c) with
  | none => exact Or.inl rfl
  | some q =>
    right
    exact (List.of_mem_zip (List.mem_of_find?_eq_some hf)).2

/-- A slug character is outside the transliteration table, hence fixed. -/
theorem translitChar_fixed {c : Char} (h : isSlugChar c = true) :
    translitChar c = c := by
  unfold translitChar
  cases hf : (translitA.zip translitB).find? (fun q => q.1 == c) with
  | none => rfl
  | some q =>
    exfalso
    have hq1 : q.1 = c := by
      have := List.find?_some hf
      simpa using this
    have hmem : q.1 ∈ translitA := (List.of_mem_zip (List.mem_of_find?_eq_some hf)).1
    rw [hq1] at hmem
    have := translitA_not_slug c hmem
    rw [h] at this
    exact Bool.true_eq_false.mp this

/-! ### What characters each stage can produce -/

theorem mem_wsRuns {c : Char} {b : Bool} {l : List Char} (h : c ∈ wsRuns b l) :
    c = '-' ∨ c ∈ l := by
  induction l generalizing b with
  | nil => simp [wsRuns] at h
  | cons x rest ih =>
    rw [wsRuns] at h
    split at h
    · split at h
      · rcases ih h with h1 | h1
        · exact Or.inl h1
        · exact Or.inr (List.mem_cons_of_mem _ h1)
      · rcases List.mem_cons.mp h with h1 | h1
        · exact Or.inl h1
        · rcases ih h1 with h2 | h2
          · exact Or.inl h2
          · exact Or.inr (List.mem_cons_of_mem _ h2)
    · rcases List.mem_cons.mp h with h1 | h1
      · exact Or.inr (List.mem_cons.mpr (Or.inl h1))
      · rcases ih h1 with h2 | h2
        · exact Or.inl h2
        · exact Or.inr (List.mem_cons_of_mem _ h2)

theorem mem_collapseHy {c : Char} {b : Bool} {l : List Char}
    (h : c ∈ collapseHy b l) : c ∈ l := by
  induction l generalizing b with
  | nil => simp [collapseHy] at h
  | cons x rest ih =>
    rw [collapseHy] at h
    split at h
    · split at h
      · exact List.mem_cons_of_mem _ (ih h)
      · rcases List.mem_cons.mp h with h1 | h1
        · rw [List.mem_cons]
          left
          next hx _ => rw [h1, hx]
        · exact List.mem_cons_of_mem _ (ih h1)
    · rcases List.mem_cons.mp h with h1 | h1
      · exact List.mem_cons.mpr (Or.inl h1)
      · exact List.mem_cons_of_mem _ (ih h1)

theorem mem_dropTrailing {p : Char → Bool} {c : Char} {l : List Char}
    (h : c ∈ dropTrailing p l) : c ∈ l := by
  induction l with
  | nil => simp [dropTrailing] at h
  | cons x rest ih =>
    simp only [dropTrailing] at h
    split at h
    · simp at h
    · rcases List.mem_cons.mp h with h1 | h1
      · exact List.mem_cons.mpr (Or.inl h1)
      · exact List.mem_cons_of_mem _ (ih h1)

theorem mem_dropWhileCh {p : Char → Bool} {c : Char} {l : List Char}
    (h : c ∈ l.dropWhile p) : c ∈ l := by
  induction l with
  | nil => simp at h
  | cons x rest ih =>
    rw [List.dropWhile_cons] at h
    split at h
    · exact List.mem_cons_of_mem _ (ih h)
    · exact h

/-- After the strip stage every remaining character is a slug character. -/
theorem stage_filter_slug {l : List Char} {c : Char}
    (h : c ∈ (((wsRuns false (l.map jsToLower)).map translitChar).flatMap
      ampExpand).filter keepSlug) : isSlugChar c = true := by
  rw [List.mem_filter] at h
  obtain ⟨hmem, hkeep⟩ := h
  rw [List.mem_flatMap] at hmem
  obtain ⟨d, hd, hcd⟩ := hmem
  by_cases hamp : d = '&'
  · subst hamp
    rw [ampExpand, if_pos rfl] at hcd
    fin_cases hcd <;> decide
  · rw [ampExpand, if_neg hamp] at hcd
    simp at hcd
    subst hcd
    rw [List.mem_map] at hd
    obtain ⟨e, he, hde⟩ := hd
    have hu : ¬(65 ≤ e.toNat ∧ e.toNat ≤ 90) := by
      rcases mem_wsRuns he with h1 | h1
      · rw [h1]; decide
      · rw [List.mem_map] at h1
        obtain ⟨f, _, hf⟩ := h1
        rw [← hf]
        exact jsToLower_not_upper f
    rcases translitChar_cases e with hcase | hcase
    · rw [← hde, hcase] at hkeep ⊢
      apply keep_ok_slug hkeep hu
      intro h95
      have he95 : e = '_' := by
        rw [char_eq_iff_toNat]
        simpa using h95
      rw [he95, translitChar_underscore] at hcase
      exact absurd hcase (by decide)
    · rw [← hde]
      exact translitB_slug _ hcase

/-- Every character of a finished slug is a slug character. -/
theorem slugifyList_chars {l : List Char} {c : Char} (h : c ∈ slugifyList l) :
    isSlugChar c = true := by
  unfold slugifyList at h
  exact stage_filter_slug (mem_collapseHy (mem_dropWhileCh (mem_dropTrailing h)))

/-! ### Structural facts about the hyphen-normalization stages -/

theorem noDD_tail {a : Char} {l : List Char} (h : noDD (a :: l) = true) :
    noDD l = true := by
  cases l with
  | nil => rfl
  | cons b rest =>
    rw [noDD, Bool.and_eq_true] at h
    exact h.2

theorem noDD_cons_of {a : Char} {l : List Char} (h1 : noDD l = true)
    (h2 : a ≠ '-' ∨ noLead l = true) : noDD (a :: l) = true := by
  cases l with
  | nil => rfl
  | cons b rest =>
    rw [noDD, Bool.and_eq_true]
    refine ⟨?_, h1⟩
    rcases h2 with h2 | h2
    · simp [h2]
    · rw [noLead] at h2
      simp at h2 ⊢
      exact Or.inr h2

theorem noDD_hyphen_noLead {l : List Char} (h : noDD ('-' :: l) = true) :
    noLead l = true := by
  cases l with
  | nil => rfl
  | cons b rest =>
    rw [noDD, Bool.and_eq_true] at h
    have h1 := h.1
    rw [noLead]
    simpa using h1

theorem collapseHy_spec (l : List Char) :
    noDD (collapseHy false l) = true ∧ noDD (collapseHy true l) = true ∧
      noLead (collapseHy true l) = true := by
  induction l with
  | nil => exact ⟨rfl, rfl, rfl⟩
  | cons c rest ih =>
    obtain ⟨ihf, iht, ihl⟩ := ih
    by_cases hc : c = '-'
    · subst hc
      rw [show collapseHy false ('-' :: rest) = '-' :: collapseHy true rest from
            by simp [collapseHy],
          show collapseHy true ('-' :: rest) = collapseHy true rest from
            by simp [collapseHy]]
      exact ⟨noDD_cons_of iht (Or.inr ihl), iht, ihl⟩
    · rw [show collapseHy false (c :: rest) = c :: collapseHy false rest from
            by simp [collapseHy, hc],
          show collapseHy true (c :: rest) = c :: collapseHy false rest from
            by simp [collapseHy, hc]]
      refine ⟨noDD_cons_of ihf (Or.inl hc), noDD_cons_of ihf (Or.inl hc), ?_⟩
      simp [noLead, hc]

theorem noDD_dropWhile {p : Char → Bool} : ∀ {l : List Char},
    noDD l = true → noDD (l.dropWhile p) = true := by
  intro l
  induction l with
  | nil => exact fun h => h
  | cons x rest ih =>
    intro h
    rw [List.dropWhile_cons]
    split
    · exact ih (noDD_tail h)
    · exact h

theorem noLead_dropWhile_hyphen (l : List Char) :
    noLead (l.dropWhile (fun c => c == '-')) = true := by
  induction l with
  | nil => rfl
  | cons x rest ih =>
    rw [List.dropWhile_cons]
    split
    · exact ih
    · next hx => rw [noLead]; simpa using hx

theorem dropTrailing_shape (p : Char → Bool) (c : Char) (rest : List Char) :
    dropTrailing p (c :: rest) = [] ∨
      dropTrailing p (c :: rest) = c :: dropTrailing p rest := by
  simp only [dropTrailing]
  split
  · exact Or.inl rfl
  · exact Or.inr rfl

theorem noLead_dropTrailing {p : Char → Bool} {l : List Char}
    (h : noLead l = true) : noLead (dropTrailing p l) = true := by
  cases l with
  | nil => rfl
  | cons c rest =>
    rcases dropTrailing_shape p c rest with hs | hs <;> rw [hs]
    · rfl
    · exact h

theorem noDD_dropTrailing {p : Char → Bool} : ∀ {l : List Char},
    noDD l = true → noDD (dropTrailing p l) = true := by
  intro l
  induction l with
  | nil => exact fun h => h
  | cons c rest ih =>
    intro h
    rcases dropTrailing_shape p c rest with hs | hs <;> rw [hs]
    · rfl
    · apply noDD_cons_of (ih (noDD_tail h))
      by_cases hc : c = '-'
      · right
        apply noLead_dropTrailing
        subst hc
        exact noDD_hyphen_noLead h
      · exact Or.inl hc

theorem noTrail_dropTrailing (l : List Char) :
    noTrail (dropTrailing (fun c => c == '-') l) = true := by
  induction l with
  | nil => rfl
  | cons c rest ih =>
    simp only [dropTrailing]
    split
    · rfl
    · next hcond =>
      cases hr : dropTrailing (fun c => c == '-') rest with
      | nil =>
        have hc : ¬((c == '-') = true) := fun hcc => hcond ⟨hr, hcc⟩
        rw [noTrail]
        simpa using hc
      | cons b t =>
        show noTrail (b :: t) = true
        rw [← hr]
        exact ih

/-- Every finished slug is canonical: slug characters only, no hyphen runs,
no hyphen at either end. -/
theorem slugifyList_canonical (l : List Char) : canonicalSlug (slugifyList l) := by
  refine ⟨fun c hc => slugifyList_chars hc, ?_, ?_, ?_⟩
  · exact noDD_dropTrailing (noDD_dropWhile (collapseHy_spec _).1)
  · exact noLead_dropTrailing (noLead_dropWhile_hyphen _)
  · exact noTrail_dropTrailing _

/-! ### Each stage fixes canonical slugs -/

theorem map_fixed {f : Char → Char} : ∀ {l : List Char},
    (∀ c ∈ l, f c = c) → l.map f = l := by
  intro l
  induction l with
  | nil => exact fun _ => rfl
  | cons x rest ih =>
    intro h
    rw [List.map_cons, h x (List.mem_cons_self x rest),
      ih fun c hc => h c (List.mem_cons_of_mem _ hc)]

theorem wsRuns_id : ∀ {l : List Char},
    (∀ c ∈ l, isJsWs c = false) → wsRuns false l = l := by
  intro l
  induction l with
  | nil => exact fun _ => rfl
  | cons x rest ih =>
    intro h
    have hx : ¬(isJsWs x = true) := by simp [h x (List.mem_cons_self x rest)]
    rw [wsRuns, if_neg hx, ih fun c hc => h c (List.mem_cons_of_mem _ hc)]

theorem flatMap_amp_id : ∀ {l : List Char},
    (∀ c ∈ l, c ≠ '&') → l.flatMap ampExpand = l := by
  intro l
  induction l with
  | nil => exact fun _ => rfl
  | cons x rest ih =>
    intro h
    rw [List.flatMap_cons, ampExpand, if_neg (h x (List.mem_cons_self x rest)),
      ih fun c hc => h c (List.mem_cons_of_mem _ hc)]
    rfl

theorem filter_keep_id {l : List Char} (h : ∀ c ∈ l, keepSlug c = true) :
    l.filter keepSlug = l :=
  List.filter_eq_self.mpr h

theorem collapseHy_id : ∀ l : List Char, noDD l = true →
    collapseHy false l = l ∧ (noLead l = true → collapseHy true l = l) := by
  intro l
  induction l with
  | nil => exact fun _ => ⟨rfl, fun _ => rfl⟩
  | cons c rest ih =>
    intro h
    obtain ⟨ihf, iht⟩ := ih (noDD_tail h)
    by_cases hc : c = '-'
    · subst hc
      constructor
      · rw [show collapseHy false ('-' :: rest) = '-' :: collapseHy true rest from
            by simp [collapseHy]]
        rw [iht (noDD_hyphen_noLead h)]
      · intro hlead
        rw [noLead] at hlead
        simp at hlead
    · constructor
      · rw [show collapseHy false (c :: rest) = c :: collapseHy false rest from
            by simp [collapseHy, hc]]
        rw [ihf]
      · intro _
        rw [show collapseHy true (c :: rest) = c :: collapseHy false rest from
            by simp [collapseHy, hc]]
        rw [ihf]

theorem dropWhile_hyphen_id {l : List Char} (h : noLead l = true) :
    l.dropWhile (fun c => c == '-') = l := by
  cases l with
  | nil => rfl
  | cons c rest =>
    have hc : ¬((c == '-') = true) := by
      rw [noLead] at h
      simpa using h
    rw [List.dropWhile_cons, if_neg hc]

theorem dropTrailing_hyphen_id : ∀ l : List Char, noTrail l = true →
    dropTrailing (fun c => c == '-') l = l := by
  intro l
  induction l with
  | nil => exact fun _ => rfl
  | cons c rest ih =>
    intro h
    cases rest with
    | nil =>
      have hcf : (c == '-') = false := by
        rw [noTrail] at h
        simpa using h
      simp [dropTrailing, hcf]
    | cons b t =>
      have ihr := ih h
      rw [show dropTrailing (fun c => c == '-') (c :: b :: t) =
          (if dropTrailing (fun c => c == '-') (b :: t) = [] ∧ ((c == '-') = true)
            then [] else c :: dropTrailing (fun c => c == '-') (b :: t)) from rfl,
        ihr, if_neg (fun hcon => List.cons_ne_nil b t hcon.1)]

/-- A canonical slug is a fixed point of the whole pipeline. -/
theorem slugifyList_fixed {l : List Char} (h : canonicalSlug l) :
    slugifyList l = l := by
  obtain ⟨hchars, hdd, hlead, htrail⟩ := h
  unfold slugifyList
  rw [map_fixed (fun c hc => jsToLower_fixed (hchars c hc)),
      wsRuns_id (fun c hc => slug_not_ws (hchars c hc)),
      map_fixed (fun c hc => translitChar_fixed (hchars c hc)),
      flatMap_amp_id (fun c hc => slug_not_amp (hchars c hc)),
      filter_keep_id (fun c hc => slug_keep (hchars c hc)),
      (collapseHy_id l hdd).1,
      dropWhile_hyphen_id hlead,
      dropTrailing_hyphen_id l htrail]

/-! ### Helper lemmas for the structured-array image list -/

theorem tru_orD_ne {o : Option String} (h : tru o = true) : orD o "" ≠ "" := by
  cases o with
  | none => simp [tru] at h
  | some s =>
    simp [tru] at h
    simp [orD, h]

theorem addThumb_foldl_inv : ∀ (ts acc : List String), acc.Nodup →
    (∀ u ∈ acc, u ≠ "") →
    (ts.foldl addThumb acc).Nodup ∧ ∀ u ∈ ts.foldl addThumb acc, u ≠ "" := by
  intro ts
  induction ts with
  | nil => exact fun acc h1 h2 => ⟨h1, h2⟩
  | cons t rest ih =>
    intro acc h1 h2
    rw [List.foldl_cons]
    apply ih
    · unfold addThumb
      split
      · next hc =>
        rw [List.nodup_append]
        refine ⟨h1, List.nodup_singleton t, ?_⟩
        intro a ha hb
        rw [List.mem_singleton] at hb
        subst hb
        exact hc.2 ha
      · exact h1
    · unfold addThumb
      split
      · next hc =>
        intro u hu
        rcases List.mem_append.mp hu with hu | hu
        · exact h2 u hu
        · rw [List.mem_singleton] at hu
          subst hu
          exact hc.1
      · exact h2

/-! ### Helper lemmas for the flexible-tabular loop -/

theorem csvStep_skip_seen {seen : List String} {r : Rec} {k : String}
    (hk : getColA r productIdAliases = some k) (hs : k ∈ seen) :
    csvStep seen r = ([], seen) := by
  unfold csvStep
  rw [hk]
  dsimp only
  rw [if_pos hs]

theorem csvStep_skip_none {seen : List String} {r : Rec}
    (hk : getColA r productIdAliases = none) : csvStep seen r = ([], seen) := by
  unfold csvStep
  rw [hk]

theorem csvStep_skip_unprocessable {seen : List String} {r : Rec}
    (h : csvUnprocessable r = true) : csvStep seen r = ([], seen) := by
  unfold csvUnprocessable at h
  unfold csvStep
  cases hk : getColA r productIdAliases with
  | none => rfl
  | some styleNo =>
    rw [hk] at h
    dsimp only
    dsimp only at h
    by_cases hs : styleNo ∈ seen
    · rw [if_pos hs]
    · rw [if_neg hs, if_pos (by simpa using h)]

theorem csvLoop_nil_of_unprocessable : ∀ (rows : List Rec) (seen : List String),
    (∀ r ∈ rows, csvUnprocessable r = true) → csvLoop seen rows = [] := by
  intro rows
  induction rows with
  | nil => exact fun _ _ => rfl
  | cons r rest ih =>
    intro seen h
    rw [csvLoop, csvStep_skip_unprocessable (h r (List.mem_cons_self r rest))]
    exact ih seen fun x hx => h x (List.mem_cons_of_mem _ hx)

theorem csvLoop_append : ∀ (xs ys : List Rec) (seen : List String),
    csvLoop seen (xs ++ ys) =
      csvLoop seen xs ++ csvLoop (csvSeenAfter seen xs) ys := by
  intro xs
  induction xs with
  | nil => exact fun ys seen => rfl
  | cons x rest ih =>
    intro ys seen
    rw [List.cons_append, csvLoop, csvLoop, csvSeenAfter, ih, List.append_assoc]

/-! ### Helper lemmas for forward-fill and the default pass -/

theorem lookupS_setS_ne {key setKey v : String} (h : setKey ≠ key) :
    ∀ r : SRow, lookupS (setS r setKey v) key = lookupS r key := by
  intro r
  induction r with
  | nil => simp [setS, lookupS, h]
  | cons q rest ih =>
    obtain ⟨a, b⟩ := q
    unfold setS
    by_cases ha : a = setKey
    · rw [if_pos ha]
      unfold lookupS
      rw [if_neg h, if_neg]
      rw [ha]
      exact h
    · rw [if_neg ha]
      unfold lookupS
      by_cases hak : a = key
      · rw [if_pos hak, if_pos hak]
      · rw [if_neg hak, if_neg hak]
        exact ih

/-- Forward-fill never touches the `Handle` column. -/
theorem ffillRow_handle (st : FfSt) (r : SRow) :
    lookupS (ffillRow st r).1 "Handle" = lookupS r "Handle" := by
  have hT := @lookupS_setS_ne "Handle" "Title" st.lastTitle (by decide)
  have hV := @lookupS_setS_ne "Handle" "Vendor" st.lastVendor (by decide)
  have hO := @lookupS_setS_ne "Handle" "Option1 Name" st.lastOption1Name
    (by decide)
  unfold ffillRow
  dsimp only
  by_cases h1 : isFilled (lookupS r "Title") = true
  · rw [if_pos h1]
    dsimp only
    by_cases h2 : isFilled (lookupS r "Vendor") = true
    · rw [if_pos h2]
      dsimp only
      by_cases h3 : isFilled (lookupS r "Option1 Name") = true
      · rw [if_pos h3]
      · rw [if_neg h3]
        exact hO r
    · rw [if_neg h2]
      dsimp only
      by_cases h3 :
          isFilled (lookupS (setS r "Vendor" st.lastVendor) "Option1 Name") = true
      · rw [if_pos h3]
        exact hV r
      · rw [if_neg h3]
        rw [hO, hV]
  · rw [if_neg h1]
    dsimp only
    by_cases h2 : isFilled (lookupS (setS r "Title" st.lastTitle) "Vendor") = true
    · rw [if_pos h2]
      dsimp only
      by_cases h3 :
          isFilled (lookupS (setS r "Title" st.lastTitle) "Option1 Name") = true
      · rw [if_pos h3]
        exact hT r
      · rw [if_neg h3]
        rw [hO, hT]
    · rw [if_neg h2]
      dsimp only
      by_cases h3 :
          isFilled (lookupS (setS (setS r "Title" st.lastTitle) "Vendor"
            st.lastVendor) "Option1 Name") = true
      · rw [if_pos h3]
        rw [hV, hT]
      · rw [if_neg h3]
        rw [hO, hV, hT]

theorem ffill_blank_handle : ∀ (rows : List SRow) (st : FfSt),
    (∀ r ∈ rows, blankS (lookupS r "Handle") = true) →
    ∀ r ∈ ffill st rows, blankS (lookupS r "Handle") = true := by
  intro rows
  induction rows with
  | nil => intro st _ r hr; simp [ffill] at hr
  | cons x rest ih =>
    intro st h r hr
    rw [ffill] at hr
    rcases List.mem_cons.mp hr with hr | hr
    · subst hr
      rw [ffillRow_handle]
      exact h x (List.mem_cons_self x rest)
    · exact ih _ (fun y hy => h y (List.mem_cons_of_mem _ hy)) r hr

/-! ### The claims -/

/-- C4: for every string `x`, `slugify (slugify x) = slugify x` — the slug
generator shared by all three services is idempotent. -/
theorem claim_C4_slugify_idempotent (x : String) :
    slugify (slugify x) = slugify x := by
  by_cases hx : x = ""
  · rw [hx]
    rfl
  · by_cases hy : slugify x = ""
    · rw [hy]
      rfl
    · conv_lhs => rw [slugify]
      rw [if_neg hy]
      have hdata : (slugify x).data = slugifyList x.data := by
        rw [slugify, if_neg hx]
      rw [hdata, slugifyList_fixed (slugifyList_canonical x.data), ← hdata]

/-- C2: structured-array mode on the single record
`{productId:"207", productName:"TUXEDO", mainImage:"http://x/1.jpg",
thumbnailImages:["http://x/2.jpg","http://x/1.jpg"]}` produces exactly two
rows: the duplicate thumbnail `http://x/1.jpg` is dropped, the first row has
Handle `tuxedo` and Image Position 1, the second row has Image Src
`http://x/2.jpg` and Image Position 2. -/
theorem claim_C2_end_to_end :
    (processJsonRows
        [{ productId := some "207", productName := some "TUXEDO",
           mainImage := some "http://x/1.jpg",
           thumbnailImages := ["http://x/2.jpg", "http://x/1.jpg"] }]).map
      (fun rows => rows.map fun r => (r.handle, r.imageSrc, r.imagePosition)) =
    .ok [(some (.str "tuxedo"), some (.str "http://x/1.jpg"), some (.num 1)),
         (some (.str "tuxedo"), some (.str "http://x/2.jpg"), some (.num 2))] := by
  rfl

/-- C5: the forward-fill pass of re-projection mode on the rows
`[{Title:"A",Vendor:"V"}, {Title:"",Vendor:""}, {Title:"B",Vendor:""}]`
yields Title/Vendor pairs `("A","V"), ("A","V"), ("B","V")`. -/
theorem claim_C5_forward_fill :
    (ffill {} [[("Title", "A"), ("Vendor", "V")],
               [("Title", ""), ("Vendor", "")],
               [("Title", "B"), ("Vendor", "")]]).map
      (fun r => (lookupS r "Title", lookupS r "Vendor")) =
    [(some "A", some "V"), (some "A", some "V"), (some "B", some "V")] := by
  rfl

/-- C9: handle generation is deterministic.  The only handle builder that
mentions the clock at all is `createHandle` of extracted-single-record mode,
and its `Date.now()` branch is unreachable from `processText` because the
name argument is defaulted to the non-empty string `"product"`; hence the
whole formatted record is independent of the clock value, and the other
modes' handles are pure functions of the record by construction. -/
theorem claim_C9_handle_deterministic (e : RawExtracted) (t1 t2 : Nat) :
    extractorFormat e t1 = extractorFormat e t2 := by
  have h : orD e.productName "product" ≠ "" := by
    cases e.productName with
    | none => simp [orD]
    | some s => by_cases hs : s = "" <;> simp [orD, hs]
  have hch : createHandle t1 (orD e.productName "product") (orD e.color "") =
      createHandle t2 (orD e.productName "product") (orD e.color "") := by
    unfold createHandle
    rw [if_neg (fun hc => h hc.1), if_neg (fun hc => h hc.1)]
  unfold extractorFormat
  rw [hch]

/-- C10: in structured-array mode a record whose Handle was already
processed for images is not discarded: exactly its primary row — with
Title, Body, Tags and Variant fields set — is appended, with no Image
Src/Image Position on it and no continuation rows. -/
theorem claim_C10_duplicate_handle_keeps_primary_row (seen : List String)
    (p : KProduct) (h : jsonHandle p ∈ seen) :
    jsonStep seen p = ([jsonProductRow p], seen) ∧
      (jsonProductRow p).imageSrc = none ∧
      (jsonProductRow p).imagePosition = none ∧
      (jsonProductRow p).title = some (.str (orD p.productName "")) ∧
      (jsonProductRow p).bodyHtml = some (.str (jsonBody p)) ∧
      (jsonProductRow p).tags = some (.str (jsonTags p)) ∧
      (jsonProductRow p).variantSKU = some (.str (orD p.productId "")) := by
  refine ⟨?_, rfl, rfl, rfl, rfl, rfl, rfl⟩
  unfold jsonStep
  rw [if_neg (fun hc => hc.2 h)]

/-- Witness for C10 at a concrete record whose handle `tuxedo` is already in
the processed set. -/
theorem claim_C10_witness :
    jsonHandle { productName := some "TUXEDO", mainImage := some "http://x/1.jpg" } ∈ ["tuxedo"] ∧
      jsonStep ["tuxedo"]
          { productName := some "TUXEDO", mainImage := some "http://x/1.jpg" } =
        ([jsonProductRow
            { productName := some "TUXEDO", mainImage := some "http://x/1.jpg" }],
         ["tuxedo"]) :=
  ⟨by decide,
   (claim_C10_duplicate_handle_keeps_primary_row ["tuxedo"] _ (by decide)).1⟩

/-- C1 counterexample: in flexible-tabular mode a thumbnail equal to the
main image is not deduplicated — the record
`{productID:"207", productName:"TUX", mainImage:"http://x/1.jpg",
thumbnailImages:"http://x/1.jpg"}` yields the same URL as Image Src on both
rows of one product's row group, refuting the claim for "every input
mode". -/
theorem claim_C1_counterexample :
    (csvLoop [] [[("productID", "207"), ("productName", "TUX"),
        ("mainImage", "http://x/1.jpg"), ("thumbnailImages", "http://x/1.jpg")]]).map
      (fun r => r.imageSrc) =
    [some (.str "http://x/1.jpg"), some (.str "http://x/1.jpg")] := by
  rfl

/-- C1 amended: the blank-skipping, exact-string-deduplicating image list of
the claim is built only in structured-array mode, where the collected
`allImages` list indeed contains no blank entry and no duplicate; the
flexible-tabular and scraper modes append thumbnails without checking them
against earlier images. -/
theorem claim_C1_amended (p : KProduct) :
    (jsonAllImages p).Nodup ∧ ∀ u ∈ jsonAllImages p, u ≠ "" := by
  unfold jsonAllImages
  apply addThumb_foldl_inv
  · split_ifs
    · exact List.nodup_singleton _
    · exact List.nodup_nil
  · split_ifs with ht
    · intro u hu
      rw [List.mem_singleton] at hu
      subst hu
      exact tru_orD_ne ht
    · intro u hu
      simp at hu

/-- C3 counterexample: re-projection mode with the non-empty input
`[{Title:"x"}]` — whose only record is rejected for its blank Handle —
returns a null CSV string (`Except.ok none`) instead of failing with a
typed error, refuting the claim for "every input mode". -/
theorem claim_C3_counterexample :
    blankS (lookupS [("Title", "x")] "Handle") = true ∧
      shopifyProcessCsv [[("Title", "x")]] = .ok none := by
  exact ⟨rfl, rfl⟩

/-- C3 amended: when a non-empty decoded input has every record rejected,
the flexible-tabular mode does throw an error with a human-readable message
(a plain `Error`, not a dedicated class), but re-projection mode instead
logs and returns a null CSV string without throwing; structured-array mode
never rejects an individual record, so the scenario cannot arise there. -/
theorem claim_C3_amended :
    (∀ rows : List Rec, rows ≠ [] → (∀ r ∈ rows, csvUnprocessable r = true) →
      processCsvRows rows =
        .error "CSVファイルから処理できる製品データが見つかりませんでした。") ∧
    (∀ rows : List SRow, rows ≠ [] →
      (∀ r ∈ rows, blankS (lookupS r "Handle") = true) →
      shopifyProcessCsv rows = .ok none) := by
  constructor
  · intro rows hne h
    unfold processCsvRows
    rw [if_neg hne]
    rw [csvLoop_nil_of_unprocessable rows [] h]
    rfl
  · intro rows hne h
    unfold shopifyProcessCsv
    rw [if_neg hne]
    have hnil : (ffill {} rows).filterMap shopifyRowPass = [] := by
      rw [List.filterMap_eq_nil_iff]
      intro r hr
      unfold shopifyRowPass
      rw [if_pos (ffill_blank_handle rows {} h r hr)]
    rw [hnil]
    rfl

/-- Witness for C3 at concrete inputs: one flexible-tabular record whose
business key `·` slugifies to nothing, and one re-projection row with no
Handle column. -/
theorem claim_C3_witness :
    processCsvRows [[("productID", "·")]] =
        .error "CSVファイルから処理できる製品データが見つかりませんでした。" ∧
      shopifyProcessCsv [[("Title", "B")]] = .ok none :=
  ⟨claim_C3_amended.1 _ (by decide) (by decide),
   claim_C3_amended.2 _ (by decide) (by decide)⟩

/-- C6 counterexample: two structured-array records with distinct business
keys (`productId` 1 and 2, surfacing as Variant SKU) but the same product
name both emit rows under the same Handle `tuxedo` in one run, refuting
collision-freedom. -/
theorem claim_C6_counterexample :
    (jsonLoop [] [{ productId := some "1", productName := some "TUXEDO" },
                  { productId := some "2", productName := some "TUXEDO" }]).map
      (fun r => (r.handle, r.variantSKU)) =
    [(some (.str "tuxedo"), some (.str "1")),
     (some (.str "tuxedo"), some (.str "2"))] := by
  rfl

/-- C6 amended: handles are not collision-free for distinct business keys;
in structured-array mode the Handle is a function of the product name alone
whenever the name's slug is non-empty, ignoring the business key, so two
records with equal names share a Handle whatever their keys. -/
theorem claim_C6_amended (p q : KProduct)
    (h : slugify (orD q.productName "") ≠ "")
    (hname : p.productName = q.productName) :
    jsonHandle p = jsonHandle q := by
  unfold jsonHandle
  rw [hname]
  rw [if_pos h, if_pos h]

/-- Witness for C6 at the two concrete records of the counterexample. -/
theorem claim_C6_witness :
    slugify (orD (some "TUXEDO") "") ≠ "" ∧
      jsonHandle { productId := some "1", productName := some "TUXEDO" } =
        jsonHandle { productId := some "2", productName := some "TUXEDO" } :=
  ⟨by decide, claim_C6_amended _ _ (by decide) rfl⟩

/-- C7 counterexample: two flexible-tabular records share the resolved
business key `·`; the first fails handle generation and is skipped without
marking the key as seen, so the *later* record with the same key is expanded
(one output row) rather than skipped entirely, refuting the claim as
stated. -/
theorem claim_C7_counterexample :
    getColA [("productID", "·")] productIdAliases = some "·" ∧
      getColA [("productID", "·"), ("name", "dress")] productIdAliases =
        some "·" ∧
      csvLoop [] [[("productID", "·")]] = [] ∧
      (csvLoop [] [[("productID", "·")],
        [("productID", "·"), ("name", "dress")]]).length = 1 := by
  exact ⟨rfl, rfl, rfl, rfl⟩

/-- C7 amended: once some earlier record with key `k` has been accepted
(`k` is in the seen set), every later record resolving to `k` is skipped
entirely — it contributes no output rows; and a record whose key cannot be
resolved is skipped without aborting the run.  A record that fails handle
generation, however, does not mark its key as seen. -/
theorem claim_C7_amended :
    (∀ (pre post : List Rec) (r : Rec) (k : String),
      getColA r productIdAliases = some k → k ∈ csvSeenAfter [] pre →
      csvLoop [] (pre ++ r :: post) = csvLoop [] (pre ++ post)) ∧
    (∀ (seen : List String) (r : Rec) (rest : List Rec),
      getColA r productIdAliases = none →
      csvLoop seen (r :: rest) = csvLoop seen rest) := by
  constructor
  · intro pre post r k hk hseen
    rw [csvLoop_append, csvLoop_append, csvLoop,
      csvStep_skip_seen hk hseen]
    rfl
  · intro seen r rest hk
    rw [csvLoop, csvStep_skip_none hk]
    rfl

/-- Witness for C7: a duplicate of an accepted key is dropped, and a
key-less record is skipped while the run continues. -/
theorem claim_C7_witness :
    csvLoop [] ([[("productID", "207"), ("name", "x")]] ++
        [("productID", "207"), ("name", "dup")] :: []) =
      csvLoop [] ([[("productID", "207"), ("name", "x")]] ++ []) ∧
    csvLoop [] ([("noid", "1")] :: [[("productID", "207"), ("name", "x")]]) =
      csvLoop [] [[("productID", "207"), ("name", "x")]] :=
  ⟨claim_C7_amended.1 _ _ _ "207" (by decide) (by decide),
   claim_C7_amended.2 [] _ _ (by decide)⟩

/-- C8 counterexample: a flexible-tabular record with no images still gets
`Image Position` 1 (and an empty-string Image Src) on its single primary
row, so the field is not blank, refuting the claim for "every mode that
performs row expansion". -/
theorem claim_C8_counterexample :
    (csvLoop [] [[("productID", "207"), ("productName", "TUX")]]).map
      (fun r => (r.imageSrc, r.imagePosition)) =
    [(some (.str ""), some (.num 1))] := by
  rfl

/-- C8 amended: in structured-array mode a product whose collected image
list is empty emits exactly one row — the primary row — and that row's
Image Src and Image Position are left unset (blank); flexible-tabular mode
instead always stamps Image Position 1 on the primary row. -/
theorem claim_C8_amended (seen : List String) (p : KProduct)
    (h : jsonAllImages p = []) :
    (jsonStep seen p).1 = [jsonProductRow p] ∧
      (jsonProductRow p).imageSrc = none ∧
      (jsonProductRow p).imagePosition = none := by
  refine ⟨?_, rfl, rfl⟩
  unfold jsonStep
  rw [h]
  split_ifs <;> rfl

/-- Witness for C8 at the record with all fields absent, whose image list is
empty. -/
theorem claim_C8_witness :
    jsonAllImages ({} : KProduct) = [] ∧
      (jsonStep [] ({} : KProduct)).1 = [jsonProductRow {}] ∧
      (jsonProductRow ({} : KProduct)).imageSrc = none ∧
      (jsonProductRow ({} : KProduct)).imagePosition = none := by
  refine ⟨rfl, ?_⟩
  exact claim_C8_amended [] {} rfl

end DessyScraper
